import Mathlib

/-!
Verification of the 2048 game engine (src/src/main.rs) against its
natural-language specification.  The Rust source is shallowly embedded:
the mutable Game struct becomes explicit state passing, the recursive
move_direction becomes a fuel-indexed recursion (the fuel NCOLS + NROWS
strictly dominates the recursion depth, which advances one cell toward a
fixed edge per call), and the two sources of randomness in add_tile (the
value draw and the rejection-sampled cell) become explicit parameters.
-/

set_option maxRecDepth 40000

namespace R2048

/-- Number of grid columns, as in the source. -/
abbrev NCOLS : Nat := 5

/-- Number of grid rows, as in the source. -/
abbrev NROWS : Nat := 4

/-- The four move directions. -/
inductive Direction : Type where
  | Up : Direction
  | Down : Direction
  | Left : Direction
  | Right : Direction
deriving DecidableEq, Repr

/-- Direction.offset from the source: Up=(0,-1), Down=(0,1), Left=(-1,0), Right=(1,0). -/
def Direction.offset : Direction → Int × Int
  | Direction.Up => (0, -1)
  | Direction.Down => (0, 1)
  | Direction.Left => (-1, 0)
  | Direction.Right => (1, 0)

/-- A tile of the grid: _value, _value_old, _blocked and _pending of the source. -/
structure Tile : Type where
  value : Nat
  valueOld : Nat
  blocked : Bool
  pending : Bool
deriving DecidableEq, Repr

/-- Tile::new. -/
def Tile.new : Tile := ⟨0, 0, false, false⟩

/-- Tile::from_value. -/
def Tile.fromValue (v : Nat) : Tile := ⟨v, 0, false, false⟩

/-- Tile::set: remembers the previous value in _value_old. -/
def Tile.set (t : Tile) (v : Nat) : Tile := { t with valueOld := t.value, value := v }

/-- Tile::get: the displayed value, which is the stale _value_old while _pending. -/
def Tile.get (t : Tile) : Nat := if t.pending then t.valueOld else t.value

/-- Tile::is_empty compares _value (not the displayed value) with 0. -/
def Tile.isEmpty (t : Tile) : Bool := t.value == 0

/-- Tile::blocked(b). -/
def Tile.setBlocked (t : Tile) (b : Bool) : Tile := { t with blocked := b }

/-- Tile::set_pending(b). -/
def Tile.setPending (t : Tile) (b : Bool) : Tile := { t with pending := b }

/-- The grid, indexed [column][row] as in the source. -/
abbrev Grid : Type := Fin NCOLS → Fin NROWS → Tile

/-- Reading grid[x][y] for usize coordinates; all source reads are bounds-checked
before indexing, so the default tile on an out-of-range index is never consulted. -/
def gget (g : Grid) (x y : Nat) : Tile :=
  if h : x < NCOLS ∧ y < NROWS then g ⟨x, h.1⟩ ⟨y, h.2⟩ else Tile.new

/-- Writing grid[x][y]; a write at an out-of-range index (never performed by the
embedded code) leaves the grid unchanged. -/
def gset (g : Grid) (x y : Nat) (t : Tile) : Grid :=
  fun i j => if i.val = x ∧ j.val = y then t else g i j

/-- The GameState enumeration of the source. -/
inductive State : Type where
  | Playing : State
  | Won : State
  | Lost : State
deriving DecidableEq, Repr

/-- A grid coordinate pair (col, row). -/
structure Point : Type where
  x : Nat
  y : Nat
deriving DecidableEq, Repr

/-- A Movement record: the moving tile with its origin and destination. -/
structure Movement : Type where
  tile : Tile
  pold : Point
  pnew : Point
deriving DecidableEq, Repr

/-- An Appearing record: a newly spawned tile not yet committed into the grid. -/
structure Appearing : Type where
  position : Point
  value : Nat
deriving DecidableEq, Repr

/-- The Game struct (the ui handle and the animation timestamp, pure
rendering/timing concerns, are not part of the embedded state). -/
structure Game : Type where
  grid : Grid
  state : State
  score : Nat
  moved : Bool
  tiles_moving : List Movement
  points_appearing : List Appearing

/-- add_score: adds the merge result to score and sets Won exactly on 2048. -/
def add_score (score : Nat) (st : State) (s : Nat) : Nat × State :=
  (score + s, if s = 2048 then State.Won else st)

/-- Fuel bound for the move recursion: every recursive call advances one cell
toward a fixed edge, so the depth is below NCOLS + NROWS. -/
def move_fuel : Nat := NCOLS + NROWS

/-- The value a merge doubles and scores: the source first zeroes the origin,
then reads the adjacent tile through Tile::get — the stale old value if that
tile is still pending. -/
def merge_val (gr : Grid) (x y xn yn : Nat) : Nat :=
  let g1 := gset gr x y ((gget gr x y).set 0)
  (gget g1 xn yn).get

/-- The three grid writes of the merge branch of move_direction: zero the
origin, double the adjacent tile (through Tile::get), block it. -/
def merge_write (gr : Grid) (x y xn yn : Nat) : Grid :=
  let g1 := gset gr x y ((gget gr x y).set 0)
  let val := (gget g1 xn yn).get
  let g2 := gset g1 xn yn ((gget g1 xn yn).set (val * 2))
  gset g2 xn yn ((gget g2 xn yn).setBlocked true)

/-- The two grid writes of the slide branch of move_direction: copy the origin
tile (through Tile::get) into the empty neighbour, zero the origin. -/
def slide_write (gr : Grid) (x y xn yn : Nat) : Grid :=
  let val := (gget gr x y).get
  let g1 := gset gr xn yn ((gget gr xn yn).set val)
  gset g1 x y ((gget g1 x y).set 0)

/-- move_direction: repeatedly advance the tile at (x, y) one cell along the
offset of d, merging into an equal-valued unblocked neighbour or sliding into
an empty cell, exactly as the source does (including reading the merged and
slid values through Tile::get). Returns the new state and the final position. -/
def move_direction (fuel : Nat) (g : Game) (x y : Nat) (d : Direction) : Game × Nat × Nat :=
  match fuel with
  | 0 => (g, x, y)
  | fuel + 1 =>
    let xd := d.offset.1
    let yd := d.offset.2
    let xnewi : Int := (x : Int) + xd
    let ynewi : Int := (y : Int) + yd
    if ynewi < 0 ∨ ynewi > (NROWS : Int) - 1 ∨ xnewi < 0 ∨ xnewi > (NCOLS : Int) - 1 then
      (g, x, y)
    else
      let xnew := xnewi.toNat
      let ynew := ynewi.toNat
      if (gget g.grid xnew ynew).isEmpty = false
          ∧ (gget g.grid xnew ynew).value = (gget g.grid x y).value
          ∧ (gget g.grid x y).blocked = false
          ∧ (gget g.grid xnew ynew).blocked = false then
        let sc := add_score g.score g.state (merge_val g.grid x y xnew ynew * 2)
        move_direction fuel
          { g with grid := merge_write g.grid x y xnew ynew,
                   score := sc.1, state := sc.2, moved := true } xnew ynew d
      else if (gget g.grid xnew ynew).isEmpty = true ∧ (gget g.grid x y).isEmpty = false then
        move_direction fuel
          { g with grid := slide_write g.grid x y xnew ynew, moved := true } xnew ynew d
      else
        (g, x, y)

/-- The iteration order of move_all (and of every grid scan in the source):
i in 0..NCOLS outer, j in 0..NROWS inner, regardless of the direction. -/
def code_order : List (Nat × Nat) :=
  (List.range NCOLS).flatMap (fun i => (List.range NROWS).map (fun j => (i, j)))

/-- The body of move_all for one position: move the non-empty tile there, and
when it changed position mark the destination pending and record a Movement
(capturing the tile as it was before the move, as the source comments). -/
def move_all_step (d : Direction) (g : Game) (p : Nat × Nat) : Game :=
  let tile := gget g.grid p.1 p.2
  if tile.isEmpty = false then
    let r := move_direction move_fuel g p.1 p.2 d
    let g2 := r.1
    let inew := r.2.1
    let jnew := r.2.2
    if inew ≠ p.1 ∨ jnew ≠ p.2 then
      { g2 with
          grid := gset g2.grid inew jnew ((gget g2.grid inew jnew).setPending true),
          tiles_moving := g2.tiles_moving ++ [⟨tile, ⟨p.1, p.2⟩, ⟨inew, jnew⟩⟩] }
    else g2
  else g

/-- move_all: sweep every cell in the fixed iteration order. -/
def move_all (g : Game) (d : Direction) : Game :=
  code_order.foldl (move_all_step d) g

/-- test_add: the source compares against the hardcoded bound 3 in both
coordinates, although the grid has 5 columns. -/
def test_add (g : Grid) (x y : Nat) (v : Tile) : Bool :=
  if x > 3 ∨ y > 3 then false else (gget g x y).value == v.value

/-- can_move: some cell is empty, or test_add accepts some 4-neighbour. -/
def can_move (g : Grid) : Bool :=
  code_order.any (fun p =>
    (gget g p.1 p.2).isEmpty
    || test_add g (p.1 + 1) p.2 (gget g p.1 p.2)
    || (decide (p.1 > 0) && test_add g (p.1 - 1) p.2 (gget g p.1 p.2))
    || test_add g p.1 (p.2 + 1) (gget g p.1 p.2)
    || (decide (p.2 > 0) && test_add g p.1 (p.2 - 1) (gget g p.1 p.2)))

/-- The scan of add_tile that decides whether any cell is empty. -/
def has_empty (g : Grid) : Bool :=
  code_order.any (fun p => (gget g p.1 p.2).isEmpty)

/-- The rejection-sampling loop of add_tile: the raw random pairs are taken
from the list cells, and the first draw landing (mod the grid bounds) on an
empty cell is chosen.  The source loops until such a draw arrives; exhausting
the list models an unboundedly unlucky draw sequence. -/
def pick_cell (g : Grid) (cells : List (Nat × Nat)) : Option (Nat × Nat) :=
  (cells.find? (fun c => (gget g (c.1 % NCOLS) (c.2 % NROWS)).isEmpty)).map
    (fun c => (c.1 % NCOLS, c.2 % NROWS))

/-- The spawn threshold 0.9 of the source, written as a normalised rational
literal (the lemma spawn_threshold_eq identifies it with 9 / 10). -/
def spawn_threshold : Rat := Rat.mk' 9 10 (by norm_num) (by norm_num)

/-- The Appearing record add_tile produces, if any: nothing when no cell is
empty or when can_move fails; otherwise the sampled empty cell, holding 4 when
the uniform draw a exceeds 0.9 and 2 otherwise. -/
def spawn_tile (g : Grid) (a : Rat) (cells : List (Nat × Nat)) : Option Appearing :=
  if has_empty g = false ∨ can_move g = false then none
  else
    (pick_cell g cells).map (fun c => ⟨⟨c.1, c.2⟩, if a > spawn_threshold then 4 else 2⟩)

/-- add_tile: push the produced Appearing record, if any. -/
def add_tile (g : Game) (a : Rat) (cells : List (Nat × Nat)) : Game :=
  { g with points_appearing := g.points_appearing ++ (spawn_tile g.grid a cells).toList }

/-- finish_animation: clear the pending flag at every Movement destination,
commit every Appearing value into the grid, and discard both lists. -/
def finish_animation (g : Game) : Game :=
  let g1 := g.tiles_moving.foldl
    (fun gr m => gset gr m.pnew.x m.pnew.y ((gget gr m.pnew.x m.pnew.y).setPending false)) g.grid
  let g2 := g.points_appearing.foldl
    (fun gr a => gset gr a.position.x a.position.y ((gget gr a.position.x a.position.y).set a.value)) g1
  { g with grid := g2, tiles_moving := [], points_appearing := [] }

/-- The blocked-reset sweep the run loop performs after each move. -/
def clear_blocked (g : Grid) : Grid := fun i j => (g i j).setBlocked false

/-- One iteration of the run loop on an arrived input: none is a poll timeout
(the loop merely redraws), some d is a direction key, which finishes any
running animation, applies the move while the game is still Playing, resets the
blocked flags, and then spawns a tile or detects the Lost state.  The quit key
leaves the loop and is not modelled.  a and cells feed add_tile's randomness. -/
def step (g : Game) (key : Option Direction) (a : Rat) (cells : List (Nat × Nat)) : Game :=
  let g0 := { g with moved := false }
  match key with
  | none => g0
  | some d =>
    let g1 := finish_animation g0
    let g2 := if g1.state ≠ State.Lost ∧ g1.state ≠ State.Won then move_all g1 d else g1
    let g3 := { g2 with grid := clear_blocked g2.grid }
    if g3.moved = true then add_tile g3 a cells
    else if can_move g3.grid = false then { g3 with state := State.Lost }
    else g3

/-- Sum of the committed tile values of the grid. -/
def grid_sum (g : Grid) : Nat :=
  (code_order.map (fun p => (gget g p.1 p.2).value)).sum

/-- Number of non-empty cells of the grid. -/
def count_tiles (g : Grid) : Nat :=
  (code_order.filter (fun p => (gget g p.1 p.2).isEmpty = false)).length

/-- The grid with every tile empty, as at Game::new. -/
def empty_grid : Grid := fun _ _ => Tile.new

/-- A fresh game, as Game::new builds it. -/
def new_game : Game := ⟨empty_grid, State.Playing, 0, false, [], []⟩

/-- A game whose grid is the given one, with everything else as at Game::new. -/
def game_of (g : Grid) : Game := ⟨g, State.Playing, 0, false, [], []⟩

/-- A grid holding the given value at each coordinate (and fresh flags). -/
def grid_of (f : Nat → Nat → Nat) : Grid := fun i j => Tile.fromValue (f i.val j.val)

/-- A grid whose row 0 holds the given values and whose other rows are empty. -/
def row_grid (vals : List Nat) : Grid :=
  grid_of (fun i j => if j = 0 then vals.getD i 0 else 0)

/-- Modelled from the spec (section 4.1): the iteration order that processes
tiles nearest the target edge before tiles farther away, for each direction.
The claim C3 compares the sweep of the source against a sweep in this order. -/
def spec_order : Direction → List (Nat × Nat)
  | Direction.Left =>
      (List.range NCOLS).flatMap (fun i => (List.range NROWS).map (fun j => (i, j)))
  | Direction.Right =>
      ((List.range NCOLS).reverse).flatMap (fun i => (List.range NROWS).map (fun j => (i, j)))
  | Direction.Up =>
      (List.range NROWS).flatMap (fun j => (List.range NCOLS).map (fun i => (i, j)))
  | Direction.Down =>
      ((List.range NROWS).reverse).flatMap (fun j => (List.range NCOLS).map (fun i => (i, j)))

/-- Modelled from the spec: a full sweep that advances each tile by the same
per-tile rules as the source, but processes tiles nearest the target edge
first, as section 4.1 of the spec prescribes. -/
def spec_sweep (g : Game) (d : Direction) : Game :=
  (spec_order d).foldl (move_all_step d) g

/-! Concrete positions used to settle the claims. -/

/-- Row 0 holds tiles 2, 2; a plain merge. -/
def game_a : Game := game_of (row_grid [2, 2, 0, 0, 0])

/-- Row 0 holds tiles 2 at columns 1 and 3, with empty cells between. -/
def game_b : Game := game_of (row_grid [0, 2, 0, 2, 0])

/-- Row 0 holds a 2 at column 0 blocked by a 4 at column 1. -/
def game_c : Game := game_of (row_grid [2, 4, 0, 0, 0])

/-- Row 0 holds tiles 1024, 1024 against the left edge. -/
def game_d : Game := game_of (row_grid [1024, 1024, 0, 0, 0])

/-- Row 0 holds tiles 2048, 2048. -/
def game_e : Game := game_of (row_grid [2048, 2048, 0, 0, 0])

/-- Row 0 holds tiles 2, 2 and a distant 4: the merged 4 can slide on and
merge a second time within the same sweep. -/
def game_f : Game := game_of (row_grid [2, 2, 0, 0, 4])

/-- A full grid whose only equal 4-adjacent pair sits vertically in column 4,
the column the hardcoded bound of test_add never lets can_move examine. -/
def grid_col4 : Grid :=
  grid_of (fun i j =>
    if i = 4 then [2, 8, 8, 4].getD j 0 else if (i + j) % 2 = 0 then 2 else 4)

/-- A saturated grid: full, and no two 4-adjacent cells are equal. -/
def grid_sat : Grid := grid_of (fun i j => if (i + j) % 2 = 0 then 2 else 4)

/-- A game that has already been won, sitting on a saturated grid. -/
def game_won : Game := ⟨grid_sat, State.Won, 100, false, [], []⟩

/-- The saturated grid as a game still being played. -/
def game_sat : Game := game_of grid_sat

/-- A draw list whose first raw pair lands on cell (0, 0). -/
def spawn_cells : List (Nat × Nat) := [(0, 0)]

/-- A grid with exactly one empty cell, at (0, 0), and no equal adjacencies
elsewhere. -/
def grid_one_empty : Grid :=
  grid_of (fun i j => if i = 0 ∧ j = 0 then 0 else if (i + j) % 2 = 0 then 2 else 4)

/-- The game after the first initial add_tile of run. -/
def g_spawn1 : Game := add_tile new_game 0 spawn_cells

/-- The game after the second initial add_tile of run, with no finish between. -/
def g_spawn2 : Game := add_tile g_spawn1 0 spawn_cells

/-!  Basic facts about grid reads and writes. -/

theorem gget_gset_same (g : Grid) (x y : Nat) (t : Tile) (hx : x < NCOLS) (hy : y < NROWS) :
    gget (gset g x y t) x y = t := by
  unfold gget gset
  rw [dif_pos ⟨hx, hy⟩]
  simp

theorem gget_gset_ne (g : Grid) (a b : Nat) (t : Tile) (x y : Nat) (h : ¬(x = a ∧ y = b)) :
    gget (gset g a b t) x y = gget g x y := by
  unfold gget gset
  by_cases hb : x < NCOLS ∧ y < NROWS
  · rw [dif_pos hb, dif_pos hb, if_neg]
    simpa using h
  · rw [dif_neg hb, dif_neg hb]

theorem gset_oob (g : Grid) (a b : Nat) (t : Tile) (h : ¬(a < NCOLS ∧ b < NROWS)) :
    gset g a b t = g := by
  funext i j
  unfold gset
  rw [if_neg]
  rintro ⟨hi, hj⟩
  exact h ⟨hi ▸ i.isLt, hj ▸ j.isLt⟩

theorem gget_oob (g : Grid) (x y : Nat) (h : ¬(x < NCOLS ∧ y < NROWS)) :
    gget g x y = Tile.new := by
  unfold gget
  rw [dif_neg h]

/-!  Lemmas about finish_animation (claim C9). -/

/-- The per-Movement action of finish_animation. -/
def mov_step (gr : Grid) (m : Movement) : Grid :=
  gset gr m.pnew.x m.pnew.y ((gget gr m.pnew.x m.pnew.y).setPending false)

/-- The per-Appearing action of finish_animation. -/
def app_step (gr : Grid) (a : Appearing) : Grid :=
  gset gr a.position.x a.position.y ((gget gr a.position.x a.position.y).set a.value)

theorem finish_animation_eq (g : Game) :
    finish_animation g =
      { g with
          grid := g.points_appearing.foldl app_step (g.tiles_moving.foldl mov_step g.grid),
          tiles_moving := [], points_appearing := [] } := rfl

/-- Committing an Appearing never touches a pending flag. -/
theorem app_step_pending (gr : Grid) (a : Appearing) (x y : Nat) :
    (gget (app_step gr a) x y).pending = (gget gr x y).pending := by
  unfold app_step
  by_cases he : x = a.position.x ∧ y = a.position.y
  · obtain ⟨hex, hey⟩ := he
    subst hex
    subst hey
    by_cases hb : a.position.x < NCOLS ∧ a.position.y < NROWS
    · rw [gget_gset_same _ _ _ _ hb.1 hb.2]
      rfl
    · rw [gset_oob _ _ _ _ hb]
  · rw [gget_gset_ne _ _ _ _ _ _ he]

theorem app_fold_pending (l : List Appearing) (gr : Grid) (x y : Nat) :
    (gget (l.foldl app_step gr) x y).pending = (gget gr x y).pending := by
  induction l generalizing gr with
  | nil => rfl
  | cons a l ih => rw [List.foldl_cons, ih, app_step_pending]

/-- A cleared pending flag stays cleared across the Movement fold. -/
theorem mov_fold_pending_false (l : List Movement) (gr : Grid) (x y : Nat)
    (h : (gget gr x y).pending = false) :
    (gget (l.foldl mov_step gr) x y).pending = false := by
  induction l generalizing gr with
  | nil => exact h
  | cons m l ih =>
    rw [List.foldl_cons]
    apply ih
    unfold mov_step
    by_cases he : x = m.pnew.x ∧ y = m.pnew.y
    · obtain ⟨hex, hey⟩ := he
      subst hex
      subst hey
      by_cases hb : m.pnew.x < NCOLS ∧ m.pnew.y < NROWS
      · rw [gget_gset_same _ _ _ _ hb.1 hb.2]
        rfl
      · rw [gset_oob _ _ _ _ hb]
        exact h
    · rw [gget_gset_ne _ _ _ _ _ _ he]
      exact h

/-- Every Movement destination has its pending flag cleared by the fold. -/
theorem mov_fold_pending_mem (l : List Movement) (gr : Grid) (m : Movement)
    (h : m ∈ l) :
    (gget (l.foldl mov_step gr) m.pnew.x m.pnew.y).pending = false := by
  induction l generalizing gr with
  | nil => cases h
  | cons m0 l ih =>
    rw [List.foldl_cons]
    rcases List.mem_cons.mp h with h0 | h1
    · subst h0
      apply mov_fold_pending_false
      unfold mov_step
      by_cases hb : m.pnew.x < NCOLS ∧ m.pnew.y < NROWS
      · rw [gget_gset_same _ _ _ _ hb.1 hb.2]
        rfl
      · rw [gset_oob _ _ _ _ hb, gget_oob _ _ _ hb]
        rfl
    · exact ih (mov_step gr m0) h1

/-!  The moved flag is only ever raised, never lowered, by a sweep;
a sweep reporting moved = false therefore did nothing at all (claim C8). -/

theorem move_direction_moved_mono (fuel : Nat) (d : Direction) :
    ∀ g x y, g.moved = true → ((move_direction fuel g x y d).1).moved = true := by
  induction fuel with
  | zero => intro g x y h; exact h
  | succ n ih =>
    intro g x y h
    simp only [move_direction]
    split
    · exact h
    · split
      · exact ih _ _ _ rfl
      · split
        · exact ih _ _ _ rfl
        · exact h

theorem move_direction_no_move (fuel : Nat) (d : Direction) :
    ∀ g x y, ((move_direction fuel g x y d).1).moved = false →
      move_direction fuel g x y d = (g, x, y) := by
  induction fuel with
  | zero => intro g x y _; rfl
  | succ n ih =>
    intro g x y
    simp only [move_direction]
    split
    · intro _; rfl
    · split
      · intro h
        rw [move_direction_moved_mono n d _ _ _ rfl] at h
        exact Bool.noConfusion h
      · split
        · intro h
          rw [move_direction_moved_mono n d _ _ _ rfl] at h
          exact Bool.noConfusion h
        · intro _; rfl

theorem move_all_step_moved_mono (d : Direction) (g : Game) (p : Nat × Nat)
    (h : g.moved = true) : (move_all_step d g p).moved = true := by
  simp only [move_all_step]
  split
  · split
    · exact move_direction_moved_mono _ _ _ _ _ h
    · exact move_direction_moved_mono _ _ _ _ _ h
  · exact h

theorem move_all_step_no_move (d : Direction) (g : Game) (p : Nat × Nat)
    (h : (move_all_step d g p).moved = false) : move_all_step d g p = g := by
  simp only [move_all_step] at h ⊢
  revert h
  split
  · split
    · intro h
      have heq := move_direction_no_move move_fuel d g p.1 p.2 h
      rename_i hemp hne
      rw [heq] at hne
      simp at hne
    · intro h
      rw [move_direction_no_move move_fuel d g p.1 p.2 h]
  · intro _; rfl

theorem move_fold_moved_mono (d : Direction) :
    ∀ (l : List (Nat × Nat)) (g : Game), g.moved = true →
      (l.foldl (move_all_step d) g).moved = true := by
  intro l
  induction l with
  | nil => intro g h; exact h
  | cons p l ih =>
    intro g h
    rw [List.foldl_cons]
    exact ih _ (move_all_step_moved_mono d g p h)

theorem move_fold_no_move (d : Direction) :
    ∀ (l : List (Nat × Nat)) (g : Game),
      (l.foldl (move_all_step d) g).moved = false → l.foldl (move_all_step d) g = g := by
  intro l
  induction l with
  | nil => intro g _; rfl
  | cons p l ih =>
    intro g h
    rw [List.foldl_cons] at h ⊢
    have hstep : (move_all_step d g p).moved = false := by
      by_contra hx
      rw [move_fold_moved_mono d l _ (eq_true_of_ne_false hx)] at h
      exact Bool.noConfusion h
    rw [move_all_step_no_move d g p hstep] at h ⊢
    exact ih g h

/-!  Grid sum accounting (claim C1). -/

theorem code_order_eq :
    code_order =
      [(0,0),(0,1),(0,2),(0,3),(1,0),(1,1),(1,2),(1,3),(2,0),(2,1),(2,2),(2,3),
       (3,0),(3,1),(3,2),(3,3),(4,0),(4,1),(4,2),(4,3)] := rfl

theorem gget_gset_ite (g : Grid) (a b : Nat) (t : Tile) (x y : Nat) :
    gget (gset g a b t) x y =
      if x = a ∧ y = b ∧ a < NCOLS ∧ b < NROWS then t else gget g x y := by
  by_cases hb : a < NCOLS ∧ b < NROWS
  · by_cases he : x = a ∧ y = b
    · obtain ⟨h1, h2⟩ := he
      subst h1
      subst h2
      rw [gget_gset_same g x y t hb.1 hb.2, if_pos ⟨rfl, rfl, hb.1, hb.2⟩]
    · rw [gget_gset_ne g a b t x y he, if_neg (fun hc => he ⟨hc.1, hc.2.1⟩)]
  · rw [gset_oob g a b t hb, if_neg (fun hc => hb ⟨hc.2.2.1, hc.2.2.2⟩)]

theorem grid_sum_gset (g : Grid) (x y : Nat) (t : Tile) (hx : x < NCOLS) (hy : y < NROWS) :
    grid_sum (gset g x y t) + (gget g x y).value = grid_sum g + t.value := by
  simp only [grid_sum, code_order_eq, List.map_cons, List.map_nil, List.sum_cons,
    List.sum_nil, gget_gset_ite]
  interval_cases x <;> interval_cases y <;> simp [NCOLS, NROWS] <;> omega

theorem grid_sum_gset_oob (g : Grid) (x y : Nat) (t : Tile) (h : ¬(x < NCOLS ∧ y < NROWS)) :
    grid_sum (gset g x y t) = grid_sum g := by
  rw [gset_oob g x y t h]

/-!  The per-sweep tile invariant: a pending tile's stale displayed value never
exceeds its committed value, and is zero while the tile is unblocked.  It holds
whenever the run loop starts a move (no tile is pending then) and is preserved
by every write move_direction performs. -/

/-- The shape every cell written during a sweep has: old value below the new,
and zero while the cell is unblocked. -/
def strong_ok (t : Tile) : Prop :=
  t.value ≠ 0 → (t.valueOld ≤ t.value ∧ (t.blocked = false → t.valueOld = 0))

/-- Cells only constrain the sweep through Tile::get when pending. -/
def tile_ok (t : Tile) : Prop := t.pending = true → strong_ok t

def grid_ok (gr : Grid) : Prop := ∀ x y : Nat, tile_ok (gget gr x y)

theorem grid_ok_gset (gr : Grid) (x y : Nat) (t : Tile) (hok : grid_ok gr)
    (ht : tile_ok t) : grid_ok (gset gr x y t) := by
  intro i j
  rw [gget_gset_ite]
  split
  · exact ht
  · exact hok i j

theorem grid_ok_of_clean (gr : Grid) (h : ∀ x y, (gget gr x y).pending = false) :
    grid_ok gr := by
  intro x y hp
  rw [h x y] at hp
  exact Bool.noConfusion hp

theorem isEmpty_false_value (t : Tile) (h : t.isEmpty = false) : t.value ≠ 0 := by
  simpa [Tile.isEmpty] using h

theorem isEmpty_true_value (t : Tile) (h : t.isEmpty = true) : t.value = 0 := by
  simpa [Tile.isEmpty] using h

theorem nonempty_in_bounds (g : Grid) (x y : Nat) (h : (gget g x y).value ≠ 0) :
    x < NCOLS ∧ y < NROWS := by
  by_contra hc
  rw [gget_oob g x y hc] at h
  exact h rfl

/-!  Projection facts for the tile mutators. -/

theorem isEmpty_setBlocked (t : Tile) (b : Bool) : (t.setBlocked b).isEmpty = t.isEmpty := rfl

theorem value_setBlocked (t : Tile) (b : Bool) : (t.setBlocked b).value = t.value := rfl

theorem value_set (t : Tile) (v : Nat) : (t.set v).value = v := rfl

theorem valueOld_set (t : Tile) (v : Nat) : (t.set v).valueOld = t.value := rfl

theorem pending_set (t : Tile) (v : Nat) : (t.set v).pending = t.pending := rfl

theorem blocked_set (t : Tile) (v : Nat) : (t.set v).blocked = t.blocked := rfl

theorem value_setPending (t : Tile) (b : Bool) : (t.setPending b).value = t.value := rfl

theorem valueOld_setBlocked (t : Tile) (b : Bool) : (t.setBlocked b).valueOld = t.valueOld := rfl

theorem pending_setBlocked (t : Tile) (b : Bool) : (t.setBlocked b).pending = t.pending := rfl

theorem blocked_setBlocked (t : Tile) (b : Bool) : (t.setBlocked b).blocked = b := rfl

theorem get_of_pending (t : Tile) (h : t.pending = true) : t.get = t.valueOld := by
  unfold Tile.get
  rw [if_pos h]

theorem get_of_not_pending (t : Tile) (h : t.pending = false) : t.get = t.value := by
  unfold Tile.get
  rw [if_neg]
  rw [h]
  exact Bool.noConfusion

/-!  What the two write bundles of move_direction do to the invariant and the
grid sum. -/

theorem merge_val_eq (gr : Grid) (x y xn yn : Nat) (hneq : ¬(xn = x ∧ yn = y)) :
    merge_val gr x y xn yn = (gget gr xn yn).get := by
  show (gget (gset gr x y ((gget gr x y).set 0)) xn yn).get = _
  rw [gget_gset_ne gr x y _ xn yn hneq]

theorem merge_write_eq (gr : Grid) (x y xn yn : Nat) (hneq : ¬(xn = x ∧ yn = y))
    (hbx : xn < NCOLS) (hby : yn < NROWS) :
    merge_write gr x y xn yn =
      gset (gset (gset gr x y ((gget gr x y).set 0)) xn yn
          ((gget gr xn yn).set ((gget gr xn yn).get * 2))) xn yn
        (((gget gr xn yn).set ((gget gr xn yn).get * 2)).setBlocked true) := by
  show gset
      (gset (gset gr x y ((gget gr x y).set 0)) xn yn
        ((gget (gset gr x y ((gget gr x y).set 0)) xn yn).set
          ((gget (gset gr x y ((gget gr x y).set 0)) xn yn).get * 2)))
      xn yn
      ((gget (gset (gset gr x y ((gget gr x y).set 0)) xn yn
          ((gget (gset gr x y ((gget gr x y).set 0)) xn yn).set
            ((gget (gset gr x y ((gget gr x y).set 0)) xn yn).get * 2))) xn yn).setBlocked
        true) = _
  rw [gget_gset_ne gr x y _ xn yn hneq,
    gget_gset_same (gset gr x y ((gget gr x y).set 0)) xn yn _ hbx hby]

theorem slide_write_eq (gr : Grid) (x y xn yn : Nat) (hneq : ¬(xn = x ∧ yn = y)) :
    slide_write gr x y xn yn =
      gset (gset gr xn yn ((gget gr xn yn).set (gget gr x y).get)) x y
        ((gget gr x y).set 0) := by
  show gset (gset gr xn yn ((gget gr xn yn).set (gget gr x y).get)) x y
      ((gget (gset gr xn yn ((gget gr xn yn).set (gget gr x y).get)) x y).set 0) = _
  rw [gget_gset_ne gr xn yn _ x y (fun hc => hneq ⟨hc.1.symm, hc.2.symm⟩)]

/-- What a merge write leaves behind: the invariant still holds, the grid sum
cannot grow (it shrinks exactly when the doubled value was read from a stale
pending tile), and the merged cell satisfies the strong per-write shape. -/
theorem merge_write_ok (gr : Grid) (x y xn yn : Nat) (hok : grid_ok gr)
    (hbx : xn < NCOLS) (hby : yn < NROWS) (hneq : ¬(xn = x ∧ yn = y))
    (hm1 : (gget gr xn yn).isEmpty = false)
    (hm2 : (gget gr xn yn).value = (gget gr x y).value)
    (hm4 : (gget gr xn yn).blocked = false) :
    grid_ok (merge_write gr x y xn yn)
    ∧ grid_sum (merge_write gr x y xn yn) ≤ grid_sum gr
    ∧ strong_ok (gget (merge_write gr x y xn yn) xn yn) := by
  have htv : (gget gr xn yn).value ≠ 0 := isEmpty_false_value _ hm1
  have hov : (gget gr x y).value ≠ 0 := hm2 ▸ htv
  obtain ⟨hx, hy⟩ := nonempty_in_bounds gr x y hov
  have hvpend : (gget gr xn yn).pending = true → (gget gr xn yn).get = 0 := by
    intro hp
    rw [get_of_pending _ hp]
    exact ((hok xn yn hp) htv).2 hm4
  have hvle : (gget gr xn yn).get ≤ (gget gr xn yn).value := by
    by_cases hp : (gget gr xn yn).pending = true
    · rw [hvpend hp]
      exact Nat.zero_le _
    · rw [get_of_not_pending _ (Bool.eq_false_iff.mpr hp)]
  have htz : tile_ok ((gget gr x y).set 0) := fun _ hv => absurd rfl hv
  have htm : tile_ok ((gget gr xn yn).set ((gget gr xn yn).get * 2)) := by
    intro hp hv
    exfalso
    apply hv
    rw [value_set, hvpend hp]
  have htb : tile_ok (((gget gr xn yn).set ((gget gr xn yn).get * 2)).setBlocked true) := by
    intro hp hv
    exfalso
    apply hv
    rw [value_setBlocked, value_set, hvpend hp]
  rw [merge_write_eq gr x y xn yn hneq hbx hby]
  refine ⟨?_, ?_, ?_⟩
  · exact grid_ok_gset _ _ _ _ (grid_ok_gset _ _ _ _ (grid_ok_gset _ _ _ _ hok htz) htm) htb
  · have hs1 := grid_sum_gset gr x y ((gget gr x y).set 0) hx hy
    have hs2 := grid_sum_gset (gset gr x y ((gget gr x y).set 0)) xn yn
      ((gget gr xn yn).set ((gget gr xn yn).get * 2)) hbx hby
    have hs3 := grid_sum_gset (gset (gset gr x y ((gget gr x y).set 0)) xn yn
        ((gget gr xn yn).set ((gget gr xn yn).get * 2))) xn yn
      (((gget gr xn yn).set ((gget gr xn yn).get * 2)).setBlocked true) hbx hby
    rw [gget_gset_ne gr x y _ xn yn hneq] at hs2
    rw [gget_gset_same _ xn yn _ hbx hby] at hs3
    rw [value_set] at hs1 hs2 hs3
    rw [value_setBlocked, value_set] at hs3
    omega
  · rw [gget_gset_same _ xn yn _ hbx hby]
    intro hv
    refine ⟨?_, fun hb => Bool.noConfusion hb⟩
    rw [valueOld_setBlocked, valueOld_set, value_setBlocked, value_set]
    by_cases hp : (gget gr xn yn).pending = true
    · exfalso
      apply hv
      rw [value_setBlocked, value_set, hvpend hp]
    · have hveq : (gget gr xn yn).get = (gget gr xn yn).value :=
        get_of_not_pending _ (Bool.eq_false_iff.mpr hp)
      omega

/-- What a slide write leaves behind: invariant preserved, sum cannot grow
(it shrinks exactly when the slid value was read from a stale pending tile),
and the freshly occupied cell satisfies the strong shape. -/
theorem slide_write_ok (gr : Grid) (x y xn yn : Nat) (hok : grid_ok gr)
    (hbx : xn < NCOLS) (hby : yn < NROWS) (hneq : ¬(xn = x ∧ yn = y))
    (hm1 : (gget gr xn yn).isEmpty = true)
    (hm2 : (gget gr x y).isEmpty = false) :
    grid_ok (slide_write gr x y xn yn)
    ∧ grid_sum (slide_write gr x y xn yn) ≤ grid_sum gr
    ∧ strong_ok (gget (slide_write gr x y xn yn) xn yn) := by
  have hov : (gget gr x y).value ≠ 0 := isEmpty_false_value _ hm2
  have htv : (gget gr xn yn).value = 0 := isEmpty_true_value _ hm1
  obtain ⟨hx, hy⟩ := nonempty_in_bounds gr x y hov
  have hvle : (gget gr x y).get ≤ (gget gr x y).value := by
    by_cases hp : (gget gr x y).pending = true
    · rw [get_of_pending _ hp]
      exact ((hok x y hp) hov).1
    · rw [get_of_not_pending _ (Bool.eq_false_iff.mpr hp)]
  have hts : strong_ok ((gget gr xn yn).set (gget gr x y).get) := by
    intro _
    rw [valueOld_set, htv]
    exact ⟨Nat.zero_le _, fun _ => rfl⟩
  have htz : tile_ok ((gget gr x y).set 0) := fun _ hv => absurd rfl hv
  rw [slide_write_eq gr x y xn yn hneq]
  refine ⟨?_, ?_, ?_⟩
  · exact grid_ok_gset _ _ _ _ (grid_ok_gset _ _ _ _ hok (fun _ => hts)) htz
  · have hs1 := grid_sum_gset gr xn yn ((gget gr xn yn).set (gget gr x y).get) hbx hby
    have hs2 := grid_sum_gset (gset gr xn yn ((gget gr xn yn).set (gget gr x y).get)) x y
      ((gget gr x y).set 0) hx hy
    rw [gget_gset_ne gr xn yn _ x y (fun hc => hneq ⟨hc.1.symm, hc.2.symm⟩)] at hs2
    rw [value_set] at hs1 hs2
    omega
  · rw [gget_gset_ne _ x y _ xn yn hneq, gget_gset_same gr xn yn _ hbx hby]
    exact hts

/-- The distance from (x, y) to the edge a direction pushes toward. -/
def edge_dist (d : Direction) (x y : Nat) : Nat :=
  match d with
  | Direction.Left => x
  | Direction.Right => NCOLS - 1 - x
  | Direction.Up => y
  | Direction.Down => NROWS - 1 - y

/-- What the bounds check of move_direction guarantees about the stepped
coordinates: they are in bounds, differ from the origin, and sit strictly
nearer the target edge. -/
theorem offset_coords (d : Direction) (x y : Nat)
    (h : ¬ ((y : Int) + d.offset.2 < 0 ∨ (y : Int) + d.offset.2 > (NROWS : Int) - 1
        ∨ (x : Int) + d.offset.1 < 0 ∨ (x : Int) + d.offset.1 > (NCOLS : Int) - 1)) :
    (((x : Int) + d.offset.1).toNat < NCOLS ∧ ((y : Int) + d.offset.2).toNat < NROWS)
    ∧ ¬(((x : Int) + d.offset.1).toNat = x ∧ ((y : Int) + d.offset.2).toNat = y)
    ∧ edge_dist d (((x : Int) + d.offset.1).toNat) (((y : Int) + d.offset.2).toNat)
        < edge_dist d x y := by
  cases d <;> simp only [Direction.offset, edge_dist] at h ⊢ <;> omega

/-- The final position of a move never moves back from the target edge. -/
theorem move_direction_edge (fuel : Nat) (d : Direction) :
    ∀ g x y, edge_dist d (move_direction fuel g x y d).2.1 (move_direction fuel g x y d).2.2
      ≤ edge_dist d x y := by
  induction fuel with
  | zero => intro g x y; exact Nat.le_refl _
  | succ n ih =>
    intro g x y
    simp only [move_direction]
    split
    · exact Nat.le_refl _
    · rename_i hbad
      split
      · exact Nat.le_trans (ih _ _ _) (Nat.le_of_lt (offset_coords d x y hbad).2.2)
      · split
        · exact Nat.le_trans (ih _ _ _) (Nat.le_of_lt (offset_coords d x y hbad).2.2)
        · exact Nat.le_refl _

/-- The heart of claim C1: along a whole telescoped move of one tile, the
invariant is preserved, the grid sum never grows, the score never shrinks;
moreover a call that returns its own start position did nothing, and after a
call that did move, the final cell carries the strong per-write shape. -/
theorem move_direction_ok (fuel : Nat) (d : Direction) :
    ∀ g x y, grid_ok g.grid →
      grid_ok (move_direction fuel g x y d).1.grid
      ∧ grid_sum (move_direction fuel g x y d).1.grid ≤ grid_sum g.grid
      ∧ g.score ≤ (move_direction fuel g x y d).1.score
      ∧ ((move_direction fuel g x y d).2 = (x, y) → (move_direction fuel g x y d).1 = g)
      ∧ ((move_direction fuel g x y d).2 ≠ (x, y) →
          strong_ok (gget (move_direction fuel g x y d).1.grid
            (move_direction fuel g x y d).2.1 (move_direction fuel g x y d).2.2)) := by
  induction fuel with
  | zero =>
    intro g x y hok
    exact ⟨hok, Nat.le_refl _, Nat.le_refl _, fun _ => rfl, fun hne => absurd rfl hne⟩
  | succ n ih =>
    intro g x y hok
    simp only [move_direction]
    split
    · exact ⟨hok, Nat.le_refl _, Nat.le_refl _, fun _ => rfl, fun hne => absurd rfl hne⟩
    · rename_i hbad
      obtain ⟨hbnds, hneq, hdist⟩ := offset_coords d x y hbad
      set xn := ((x : Int) + d.offset.1).toNat with hxn
      set yn := ((y : Int) + d.offset.2).toNat with hyn
      split
      · rename_i hm
        have hw := merge_write_ok g.grid x y xn yn hok hbnds.1 hbnds.2 hneq
          hm.1 hm.2.1 hm.2.2.2
        set G : Game :=
          { g with grid := merge_write g.grid x y xn yn,
                   score := (add_score g.score g.state (merge_val g.grid x y xn yn * 2)).1,
                   state := (add_score g.score g.state (merge_val g.grid x y xn yn * 2)).2,
                   moved := true } with hGdef
        have hokG : grid_ok G.grid := hw.1
        have hrec := ih G xn yn hokG
        refine ⟨hrec.1, Nat.le_trans hrec.2.1 hw.2.1,
          Nat.le_trans (Nat.le_add_right g.score _) hrec.2.2.1, ?_, ?_⟩
        · intro hceq
          exfalso
          have hE := move_direction_edge n d G xn yn
          rw [hceq] at hE
          simp only [Prod.fst, Prod.snd] at hE
          omega
        · intro _
          by_cases hrc : (move_direction n G xn yn d).2 = (xn, yn)
          · have hR1 := hrec.2.2.2.1 hrc
            rw [hR1, hrc]
            exact hw.2.2
          · exact hrec.2.2.2.2 hrc
      · split
        · rename_i hmv
          have hw := slide_write_ok g.grid x y xn yn hok hbnds.1 hbnds.2 hneq
            hmv.1 hmv.2
          set G : Game :=
            { g with grid := slide_write g.grid x y xn yn, moved := true } with hGdef
          have hokG : grid_ok G.grid := hw.1
          have hrec := ih G xn yn hokG
          refine ⟨hrec.1, Nat.le_trans hrec.2.1 hw.2.1, hrec.2.2.1, ?_, ?_⟩
          · intro hceq
            exfalso
            have hE := move_direction_edge n d G xn yn
            rw [hceq] at hE
            simp only [Prod.fst, Prod.snd] at hE
            omega
          · intro _
            by_cases hrc : (move_direction n G xn yn d).2 = (xn, yn)
            · have hR1 := hrec.2.2.2.1 hrc
              rw [hR1, hrc]
              exact hw.2.2
            · exact hrec.2.2.2.2 hrc
        · exact ⟨hok, Nat.le_refl _, Nat.le_refl _, fun _ => rfl, fun hne => absurd rfl hne⟩

theorem move_all_step_ok (d : Direction) (g : Game) (p : Nat × Nat) (hok : grid_ok g.grid) :
    grid_ok (move_all_step d g p).grid
    ∧ grid_sum (move_all_step d g p).grid ≤ grid_sum g.grid
    ∧ g.score ≤ (move_all_step d g p).score := by
  simp only [move_all_step]
  split
  · have hmd := move_direction_ok move_fuel d g p.1 p.2 hok
    split
    · rename_i hne
      have hpair : (move_direction move_fuel g p.1 p.2 d).2 ≠ (p.1, p.2) := by
        intro hcon
        rcases hne with h1 | h1 <;> rw [hcon] at h1 <;> exact h1 rfl
      have hstrong := hmd.2.2.2.2 hpair
      refine ⟨?_, ?_, hmd.2.2.1⟩
      · apply grid_ok_gset _ _ _ _ hmd.1
        intro _ hv
        exact hstrong hv
      · show grid_sum (gset (move_direction move_fuel g p.1 p.2 d).1.grid
            (move_direction move_fuel g p.1 p.2 d).2.1
            (move_direction move_fuel g p.1 p.2 d).2.2
            ((gget (move_direction move_fuel g p.1 p.2 d).1.grid
              (move_direction move_fuel g p.1 p.2 d).2.1
              (move_direction move_fuel g p.1 p.2 d).2.2).setPending true)) ≤ grid_sum g.grid
        by_cases hb : (move_direction move_fuel g p.1 p.2 d).2.1 < NCOLS
            ∧ (move_direction move_fuel g p.1 p.2 d).2.2 < NROWS
        · have hs := grid_sum_gset (move_direction move_fuel g p.1 p.2 d).1.grid
            (move_direction move_fuel g p.1 p.2 d).2.1
            (move_direction move_fuel g p.1 p.2 d).2.2
            ((gget (move_direction move_fuel g p.1 p.2 d).1.grid
              (move_direction move_fuel g p.1 p.2 d).2.1
              (move_direction move_fuel g p.1 p.2 d).2.2).setPending true) hb.1 hb.2
          rw [value_setPending] at hs
          have := hmd.2.1
          omega
        · rw [grid_sum_gset_oob _ _ _ _ hb]
          exact hmd.2.1
    · exact ⟨hmd.1, hmd.2.1, hmd.2.2.1⟩
  · exact ⟨hok, Nat.le_refl _, Nat.le_refl _⟩

theorem move_fold_ok (d : Direction) :
    ∀ (l : List (Nat × Nat)) (g : Game), grid_ok g.grid →
      grid_ok (l.foldl (move_all_step d) g).grid
      ∧ grid_sum (l.foldl (move_all_step d) g).grid ≤ grid_sum g.grid
      ∧ g.score ≤ (l.foldl (move_all_step d) g).score := by
  intro l
  induction l with
  | nil => intro g hok; exact ⟨hok, Nat.le_refl _, Nat.le_refl _⟩
  | cons p l ih =>
    intro g hok
    rw [List.foldl_cons]
    have hstep := move_all_step_ok d g p hok
    have hrest := ih (move_all_step d g p) hstep.1
    exact ⟨hrest.1, Nat.le_trans hrest.2.1 hstep.2.1, Nat.le_trans hstep.2.2 hrest.2.2⟩

theorem pending_grid_of (f : Nat → Nat → Nat) (x y : Nat) :
    (gget (grid_of f) x y).pending = false := by
  unfold gget
  split
  · rfl
  · rfl

/-!  Lemmas about the run loop step (claim C4). -/

theorem finish_animation_state (g : Game) : (finish_animation g).state = g.state := rfl

theorem finish_animation_moved (g : Game) : (finish_animation g).moved = g.moved := rfl

theorem gget_clear_blocked (g : Grid) (x y : Nat) :
    gget (clear_blocked g) x y = (gget g x y).setBlocked false := by
  unfold gget clear_blocked
  by_cases hb : x < NCOLS ∧ y < NROWS
  · rw [dif_pos hb, dif_pos hb]
  · rw [dif_neg hb, dif_neg hb]
    rfl

theorem test_add_value_eq (g : Grid) (x y : Nat) (v w : Tile) (hv : v.value = w.value) :
    test_add g x y v = test_add g x y w := by
  unfold test_add
  split
  · rfl
  · rw [hv]

/-- Resetting blocked flags does not change what can_move sees. -/
theorem can_move_clear_blocked (g : Grid) : can_move (clear_blocked g) = can_move g := by
  unfold can_move
  congr 1
  funext p
  simp only [gget_clear_blocked, isEmpty_setBlocked]
  rw [test_add_value_eq (clear_blocked g) (p.1 + 1) p.2
        ((gget g p.1 p.2).setBlocked false) (gget g p.1 p.2) (value_setBlocked _ _),
    test_add_value_eq (clear_blocked g) (p.1 - 1) p.2
        ((gget g p.1 p.2).setBlocked false) (gget g p.1 p.2) (value_setBlocked _ _),
    test_add_value_eq (clear_blocked g) p.1 (p.2 + 1)
        ((gget g p.1 p.2).setBlocked false) (gget g p.1 p.2) (value_setBlocked _ _),
    test_add_value_eq (clear_blocked g) p.1 (p.2 - 1)
        ((gget g p.1 p.2).setBlocked false) (gget g p.1 p.2) (value_setBlocked _ _)]
  unfold test_add
  simp only [gget_clear_blocked, value_setBlocked]

theorem step_none (g : Game) (a : Rat) (cells : List (Nat × Nat)) :
    step g none a cells = { g with moved := false } := rfl

/-- A direction key arriving while the game is Won or Lost skips the move:
only the finish-commit, the blocked reset and the lost-check run. -/
theorem step_stuck (g : Game) (d : Direction) (a : Rat) (cells : List (Nat × Nat))
    (h : g.state ≠ State.Playing) :
    step g (some d) a cells =
      (if can_move (finish_animation { g with moved := false }).grid = false
       then { finish_animation { g with moved := false } with
                grid := clear_blocked (finish_animation { g with moved := false }).grid,
                state := State.Lost }
       else { finish_animation { g with moved := false } with
                grid := clear_blocked (finish_animation { g with moved := false }).grid }) := by
  have hns : ¬ ((finish_animation { g with moved := false }).state ≠ State.Lost
      ∧ (finish_animation { g with moved := false }).state ≠ State.Won) := by
    rw [finish_animation_state]
    rcases hgs : g.state with _ | _ | _
    · exact absurd hgs h
    · rintro ⟨h1, h2⟩
      exact h2 rfl
    · rintro ⟨h1, h2⟩
      exact h1 rfl
  simp only [step]
  rw [if_neg hns]
  rw [if_neg (show ¬ _ = true from fun hx => Bool.noConfusion hx)]
  rw [can_move_clear_blocked]

/-!  Theorems settling the claims. -/

/-- The spawn threshold literal is the 9 / 10 of the source. -/
theorem spawn_threshold_eq : spawn_threshold = (9 : Rat) / 10 := by
  rw [spawn_threshold, Rat.mk'_eq_divInt, Rat.divInt_eq_div]
  norm_num

/-- Claim C1, counterexample: moving game_b (tiles 2 at columns 1 and 3 of row 0)
to the Left drops the grid sum from 4 to 0 — the second 2 merges into the first
tile while its pending flag is set, so Tile::get yields the stale old value 0 —
refuting that the sum never decreases; and moving game_a (tiles 2, 2) to the
Left adds 4 to the score while leaving the grid sum unchanged, refuting that
the sum difference equals the merge results added to the score. -/
theorem C1_counterexample :
    ¬ grid_sum game_b.grid ≤ grid_sum (move_all game_b Direction.Left).grid
    ∧ grid_sum game_b.grid = 4
    ∧ grid_sum (move_all game_b Direction.Left).grid = 0
    ∧ (move_all game_b Direction.Left).score = 0
    ∧ (move_all game_a Direction.Left).score - game_a.score = 4
    ∧ grid_sum (move_all game_a Direction.Left).grid = grid_sum game_a.grid := by
  decide

/-- Claim C1, amended: on any grid with no pending flag set — as holds
whenever the run loop applies a move, every pending flag having been cleared
by finish_animation — a move never increases the sum of tile values (a merge
normally conserves it, but one that reads a stale pending tile through
Tile::get shrinks it), and the score never decreases. -/
theorem C1_sum_monotone (g : Game) (d : Direction)
    (hclean : ∀ x y, (gget g.grid x y).pending = false) :
    grid_sum (move_all g d).grid ≤ grid_sum g.grid
    ∧ g.score ≤ (move_all g d).score := by
  have hok := grid_ok_of_clean g.grid hclean
  have hall := move_fold_ok d code_order g hok
  exact ⟨hall.2.1, hall.2.2⟩

/-- Claim C1, witness: the amended theorem applied to game_b (two tiles of
value 2 in row 0) moving Left, a clean grid. -/
theorem C1_witness :
    grid_sum (move_all game_b Direction.Left).grid ≤ grid_sum game_b.grid
    ∧ game_b.score ≤ (move_all game_b Direction.Left).score := by
  apply C1_sum_monotone game_b Direction.Left
  intro x y
  exact pending_grid_of (fun i j => if j = 0 then [0, 2, 0, 2, 0].getD i 0 else 0) x y

/-- Claim C2, evaluation at the failing input: sweeping game_f (row 2, 2, _, _, 4)
to the Right merges the two 2s into a 4, which — its merge-block flag left behind
on the vacated cell — slides on and merges with the 4 into a single 8, adding
4 + 8 = 12 to the score: a tile resulting from a merge merges again in the same
sweep. -/
theorem C2_double_merge_eval :
    (gget (move_all game_f Direction.Right).grid 4 0).value = 8
    ∧ (move_all game_f Direction.Right).score = 12
    ∧ count_tiles (move_all game_f Direction.Right).grid = 1 := by
  decide

/-- Claim C3, counterexample: sweeping game_c (row 2, 4, _, _, _) to the Right
in the source's fixed ascending order leaves the 2 stranded at column 0, while
the nearest-edge-first sweep of the spec pulls it to column 3: the resulting
grids differ. -/
theorem C3_counterexample :
    (gget (move_all game_c Direction.Right).grid 0 0).value = 2
    ∧ (gget (spec_sweep game_c Direction.Right).grid 0 0).value = 0
    ∧ (move_all game_c Direction.Right).grid ≠ (spec_sweep game_c Direction.Right).grid := by
  refine ⟨by decide, by decide, fun h => ?_⟩
  have h1 : (gget (move_all game_c Direction.Right).grid 0 0).value = 2 := by decide
  have h2 : (gget (spec_sweep game_c Direction.Right).grid 0 0).value = 0 := by decide
  rw [h] at h1
  omega

/-- Claim C3, amended: for Left (where the source's ascending column-major
iteration is exactly the nearest-edge-first order) the sweep of the source
coincides with the nearest-edge-first sweep of the spec on every game state. -/
theorem C3_left_is_nearest_edge_first :
    ∀ g : Game, move_all g Direction.Left = spec_sweep g Direction.Left :=
  fun _ => rfl

/-- Claim C4, counterexample: on a saturated grid a game whose state is Won
turns to Lost as soon as the next direction key arrives, because the loop's
lost-check is not guarded by the Playing state. -/
theorem C4_counterexample :
    game_won.state = State.Won
    ∧ (step game_won (some Direction.Up) 0 []).state = State.Lost := by
  constructor
  · rfl
  · decide

/-- Claim C4, amended: the step relation never re-enters Playing, Lost is
terminal, and a Won state either stays Won or falls to Lost — the latter
exactly when a direction key arrives while the settled grid admits no move;
while the game is not Playing a key changes the grid only by committing the
pending animation and resetting blocked flags (no move is applied), and a
poll timeout changes nothing but the moved flag. -/
theorem C4_state_transitions (g : Game) (k : Option Direction) (a : Rat)
    (cells : List (Nat × Nat)) :
    ((step g k a cells).state = State.Playing → g.state = State.Playing)
    ∧ (g.state = State.Lost → (step g k a cells).state = State.Lost)
    ∧ (g.state = State.Won →
        (step g k a cells).state = State.Won ∨ (step g k a cells).state = State.Lost)
    ∧ (g.state = State.Won → ∀ d, k = some d →
        ((step g k a cells).state = State.Lost ↔
          can_move (finish_animation { g with moved := false }).grid = false))
    ∧ (g.state ≠ State.Playing → ∀ d, k = some d →
        (step g k a cells).grid = clear_blocked (finish_animation { g with moved := false }).grid)
    ∧ (k = none → step g k a cells = { g with moved := false }) := by
  have hstuck := fun (d : Direction) (h : g.state ≠ State.Playing) => step_stuck g d a cells h
  have hstate : ∀ d, g.state ≠ State.Playing →
      (step g (some d) a cells).state =
        (if can_move (finish_animation { g with moved := false }).grid = false
         then State.Lost else g.state) := by
    intro d h
    rw [hstuck d h]
    rw [apply_ite (fun gg : Game => gg.state)]
    split <;> rfl
  have hgrid : ∀ d, g.state ≠ State.Playing →
      (step g (some d) a cells).grid =
        clear_blocked (finish_animation { g with moved := false }).grid := by
    intro d h
    rw [hstuck d h]
    rw [apply_ite (fun gg : Game => gg.grid)]
    split <;> rfl
  have hlost : g.state = State.Lost → (step g k a cells).state = State.Lost := by
    intro hl
    cases k with
    | none => exact hl
    | some d =>
      rw [hstate d (by rw [hl]; exact fun hx => State.noConfusion hx)]
      rw [hl]
      split <;> rfl
  have hwon : g.state = State.Won →
      (step g k a cells).state = State.Won ∨ (step g k a cells).state = State.Lost := by
    intro hw
    cases k with
    | none => exact Or.inl hw
    | some d =>
      rw [hstate d (by rw [hw]; exact fun hx => State.noConfusion hx)]
      rw [hw]
      split
      · exact Or.inr rfl
      · exact Or.inl rfl
  refine ⟨?_, hlost, hwon, ?_, ?_, ?_⟩
  · intro hp
    rcases hgs : g.state with _ | _ | _
    · rfl
    · rcases hwon hgs with hx | hx <;> rw [hp] at hx <;> exact State.noConfusion hx
    · have hx := hlost hgs
      rw [hp] at hx
      exact State.noConfusion hx
  · intro hw d hk
    subst hk
    rw [hstate d (by rw [hw]; exact fun hx => State.noConfusion hx)]
    constructor
    · intro hx
      by_contra hc
      rw [if_neg hc, hw] at hx
      exact State.noConfusion hx
    · intro hx
      rw [if_pos hx]
  · intro h d hk
    subst hk
    exact hgrid d h
  · intro hk
    subst hk
    rfl

/-- Claim C5, evaluation at the failing input: grid_col4 is full and its only
equal 4-adjacent pair sits vertically in column 4 at rows 1 and 2; can_move
returns false for it — test_add rejects every probe with column index above 3,
a leftover of the earlier 4-by-4 grid — although a Down move does move (it
merges that very pair). -/
theorem C5_can_move_eval :
    can_move grid_col4 = false
    ∧ (gget grid_col4 4 1).value = (gget grid_col4 4 2).value
    ∧ (gget grid_col4 4 1).isEmpty = false
    ∧ (gget grid_col4 4 2).isEmpty = false
    ∧ has_empty grid_col4 = false
    ∧ (move_all (game_of grid_col4) Direction.Down).moved = true := by
  decide

/-- Claim C6: add_score sets Won exactly when the value it is handed — the
doubled result of a merge — is exactly 2048; concretely, merging two 1024s
wins, while merging two 2048s (producing 4096) leaves the state Playing. -/
theorem C6_won_iff_merge_2048 :
    (∀ score st v, (add_score score st v).2 = State.Won ↔ (v = 2048 ∨ st = State.Won))
    ∧ (move_all game_d Direction.Left).state = State.Won
    ∧ (move_all game_e Direction.Left).state = State.Playing := by
  refine ⟨fun score st v => ?_, by decide, by decide⟩
  unfold add_score
  by_cases h : v = 2048
  · simp [h]
  · cases st <;> simp [h]

/-- Claim C8: a move call reporting moved = false changed nothing at all —
grid, score, state and animation lists included — and an immediate second
application of the same direction again reports moved = false. -/
theorem C8_idempotent_at_saturation (g : Game) (d : Direction)
    (h : (move_all g d).moved = false) :
    move_all g d = g ∧ (move_all (move_all g d) d).moved = false := by
  have h2 : move_all g d = g := move_fold_no_move d code_order g h
  refine ⟨h2, ?_⟩
  rw [h2]
  exact h

/-- Claim C8, witness: the saturated checkerboard grid reports moved = false
on an Up move, and the theorem applies to it. -/
theorem C8_witness :
    move_all game_sat Direction.Up = game_sat
    ∧ (move_all (move_all game_sat Direction.Up) Direction.Up).moved = false :=
  C8_idempotent_at_saturation game_sat Direction.Up (by decide)

/-- Claim C9: finish_animation is idempotent — a second call is a no-op — it
leaves both animation lists empty, and it clears the pending flag of every
recorded Movement destination (committed Appearing values never set one). -/
theorem C9_finish_idempotent (g : Game) :
    finish_animation (finish_animation g) = finish_animation g
    ∧ (finish_animation g).tiles_moving = []
    ∧ (finish_animation g).points_appearing = []
    ∧ ∀ m, m ∈ g.tiles_moving →
        (gget (finish_animation g).grid m.pnew.x m.pnew.y).pending = false := by
  refine ⟨rfl, rfl, rfl, fun m hm => ?_⟩
  show (gget (g.points_appearing.foldl app_step (g.tiles_moving.foldl mov_step g.grid))
      m.pnew.x m.pnew.y).pending = false
  rw [app_fold_pending]
  exact mov_fold_pending_mem _ _ _ hm

/-- Claim C9, witness: the theorem applied to a state with one pending
Movement into cell (0, 0) and one pending Appearing. -/
theorem C9_witness :
    (finish_animation (finish_animation
        ⟨row_grid [2, 2, 0, 0, 0], State.Playing, 0, true,
          [⟨Tile.fromValue 2, ⟨3, 0⟩, ⟨0, 0⟩⟩], [⟨⟨1, 1⟩, 2⟩]⟩) =
      finish_animation
        ⟨row_grid [2, 2, 0, 0, 0], State.Playing, 0, true,
          [⟨Tile.fromValue 2, ⟨3, 0⟩, ⟨0, 0⟩⟩], [⟨⟨1, 1⟩, 2⟩]⟩)
    ∧ (gget (finish_animation
        ⟨row_grid [2, 2, 0, 0, 0], State.Playing, 0, true,
          [⟨Tile.fromValue 2, ⟨3, 0⟩, ⟨0, 0⟩⟩], [⟨⟨1, 1⟩, 2⟩]⟩).grid 0 0).pending = false := by
  refine ⟨(C9_finish_idempotent _).1, ?_⟩
  exact (C9_finish_idempotent
    ⟨row_grid [2, 2, 0, 0, 0], State.Playing, 0, true,
      [⟨Tile.fromValue 2, ⟨3, 0⟩, ⟨0, 0⟩⟩], [⟨⟨1, 1⟩, 2⟩]⟩).2.2.2
    ⟨Tile.fromValue 2, ⟨3, 0⟩, ⟨0, 0⟩⟩ (List.mem_singleton.mpr rfl)

/-- Claim C7: add_tile spawns nothing — the game is unchanged — when no cell
is empty or can_move fails, even though empty cells may exist; otherwise every
produced Appearing record sits on an empty cell of the committed grid, holds
value 2 or 4, and is pushed as exactly one new record; and when the grid has
an empty cell, can_move holds and the draw list reaches an empty cell, a
record is produced. -/
theorem C7_spawn_cases (g : Game) (a : Rat) (cells : List (Nat × Nat)) :
    ((has_empty g.grid = false ∨ can_move g.grid = false) →
        spawn_tile g.grid a cells = none ∧ add_tile g a cells = g)
    ∧ (∀ r, spawn_tile g.grid a cells = some r →
        (gget g.grid r.position.x r.position.y).isEmpty = true
        ∧ (r.value = 2 ∨ r.value = 4)
        ∧ (add_tile g a cells).points_appearing = g.points_appearing ++ [r])
    ∧ (∀ c, has_empty g.grid = true → can_move g.grid = true →
        pick_cell g.grid cells = some c →
        spawn_tile g.grid a cells =
          some ⟨⟨c.1, c.2⟩, if a > spawn_threshold then 4 else 2⟩) := by
  refine ⟨?_, ?_, ?_⟩
  · intro h
    refine ⟨by rw [spawn_tile, if_pos h], ?_⟩
    show { g with points_appearing := g.points_appearing ++ (spawn_tile g.grid a cells).toList } = g
    rw [spawn_tile, if_pos h]
    simp
  · intro r h
    by_cases hc : has_empty g.grid = false ∨ can_move g.grid = false
    · rw [spawn_tile, if_pos hc] at h
      exact Option.noConfusion h
    · rw [spawn_tile, if_neg hc] at h
      obtain ⟨c, hfind, hval⟩ := Option.map_eq_some'.mp h
      obtain ⟨c0, hfind0, hc0⟩ := Option.map_eq_some'.mp hfind
      have hempty := List.find?_some hfind0
      refine ⟨?_, ?_, ?_⟩
      · rw [← hval, ← hc0]
        exact hempty
      · rw [← hval]
        by_cases ha : a > spawn_threshold
        · right; simp [ha]
        · left; simp [ha]
      · show g.points_appearing ++ (spawn_tile g.grid a cells).toList = _
        rw [spawn_tile, if_neg hc, hfind]
        rw [show Option.map
            (fun c : Nat × Nat =>
              (⟨⟨c.1, c.2⟩, if a > spawn_threshold then 4 else 2⟩ : Appearing))
            (some c) = some ⟨⟨c.1, c.2⟩, if a > spawn_threshold then 4 else 2⟩ from rfl]
        rw [hval]
        rfl
  · intro c hemp hcm hpick
    rw [spawn_tile, if_neg (by simp [hemp, hcm]), hpick]
    rfl

/-- Claim C7, witness: the theorem applied to the grid with a single empty
cell (0, 0) — where can_move holds and the draw list reaches that cell — and,
through its production case, the concrete spawned record. -/
theorem C7_witness :
    spawn_tile grid_one_empty 0 spawn_cells = some ⟨⟨0, 0⟩, 2⟩
    ∧ (gget grid_one_empty 0 0).isEmpty = true := by
  have hprod : spawn_tile grid_one_empty 0 spawn_cells =
      some ⟨⟨0, 0⟩, if (0 : Rat) > spawn_threshold then 4 else 2⟩ :=
    (C7_spawn_cases (game_of grid_one_empty) 0 spawn_cells).2.2
      (0, 0) (by decide) (by decide) (by decide)
  have hlt : ¬ ((0 : Rat) > spawn_threshold) := by
    rw [spawn_threshold_eq]
    norm_num
  refine ⟨?_, by decide⟩
  rw [hprod, if_neg hlt]

/-- Claim C10: starting from the fresh game, two add_tile calls with no
finish_animation between them (exactly the two initial spawns of run) can pick
the same cell, since the empty-cell scan reads only committed grid values:
with both raw draws landing on (0, 0), both Appearing records share that
position, and committing them adds a single tile to the grid. -/
theorem C10_spawn_collision :
    g_spawn2.points_appearing.map (fun a => a.position) = [⟨0, 0⟩, ⟨0, 0⟩]
    ∧ g_spawn2.points_appearing.length = 2
    ∧ count_tiles (finish_animation g_spawn2).grid = 1
    ∧ (gget (finish_animation g_spawn2).grid 0 0).value = 2 := by
  decide

end R2048
